import Mathlib

/-!
Verification of the control logic of the globe LED lamp (files `globe.py`,
`main.py`, `common.py`): the color codec (gamma packing / unpacking), the
schedule evaluator, the nightlight tinting, the mode-advance state machine,
the walk animation step, the supervisor's retrying color propagation, and the
hex color parser of the worker's HTTP surface.

Machine integers are modelled as `ℕ`/`ℤ`; Python exceptions as `Except`;
Python `None` as `Option.none`.
-/

/-- An RGBW color: four independent 8-bit channels, as the 4-tuples
`(r, g, b, w)` passed around by `globe.py`. -/
structure Color where
  r : ℕ
  g : ℕ
  b : ℕ
  w : ℕ
deriving DecidableEq

namespace Gamma

/-- One entry of the gamma table of `globe.py`:
`int(0.5 + 255 * (i / 255) ** 2.0)`.  The exact real value `i^2/255 + 1/2`
is never closer than `1/510` to an integer (`i^2` cannot be congruent to
`127.5` mod `255`), while the double-precision evaluation is accurate to
far better than that, so the float expression computes exactly
`⌊(2*i*i + 255) / 510⌋`, which is the natural-number division below. -/
def value (i : ℕ) : ℕ := (2 * i * i + 255) / 510

/-- `Gamma.R = [int(0.5 + 255 * (i / 255) ** 2.0) for i in range(256)]`. -/
def R : List ℕ := (List.range 256).map value

/-- `Gamma.G`, identical comprehension. -/
def G : List ℕ := (List.range 256).map value

/-- `Gamma.B`, identical comprehension. -/
def B : List ℕ := (List.range 256).map value

/-- `Gamma.W`, identical comprehension. -/
def W : List ℕ := (List.range 256).map value

end Gamma

/-- `Pixels.rgbw_to_int`:
`(G.W[w] << 24) | (G.G[g] << 16) | (G.R[r] << 8) | G.B[b]`.
List indexing is total in Python only in range; every use below is guarded by
`≤ 255` bounds, so the `getD` default is never reached. -/
def rgbw_to_int (c : Color) : ℕ :=
  ((Gamma.W.getD c.w 0) <<< 24) ||| ((Gamma.G.getD c.g 0) <<< 16) |||
    ((Gamma.R.getD c.r 0) <<< 8) ||| (Gamma.B.getD c.b 0)

/-- Python's `bisect.bisect` (a.k.a. `bisect_right`) applied to a sorted
list: the insertion point, i.e. the number of entries that are `≤ x`
(every entry to the left is `≤ x`, every entry to the right is `> x`). -/
def bisect (a : List ℕ) (x : ℕ) : ℕ := a.countP (fun e => decide (e ≤ x))

/-- `Pixels.int_to_rgbw`: per-byte `bisect.bisect` into the gamma tables,
returned in the order `(r, g, b, w)`. -/
def int_to_rgbw (v : ℕ) : Color where
  r := bisect Gamma.R ((v >>> 8) &&& 0xff)
  g := bisect Gamma.G ((v >>> 16) &&& 0xff)
  b := bisect Gamma.B (v &&& 0xff)
  w := bisect Gamma.W ((v >>> 24) &&& 0xff)

/-- The spec's gamma curve, written exactly as the spec words it:
`corrected[i] = round(255 * (i/255)^2)` (spec §3).  Used only to compare
the source's table against the specification. -/
def specCorrected (i : ℕ) : ℤ := round ((255 : ℚ) * ((i : ℚ) / 255) ^ 2)

/-- The source's gamma table agrees with the spec's rounding formula. -/
theorem gammaValue_eq_specCorrected (i : ℕ) :
    specCorrected i = (Gamma.value i : ℤ) := by
  have h : (255 : ℚ) * ((i : ℚ) / 255) ^ 2 + 1 / 2
      = ((2 * i * i + 255 : ℕ) : ℚ) / ((510 : ℕ) : ℚ) := by
    push_cast
    ring
  rw [specCorrected, round_eq, h, Rat.floor_natCast_div_natCast, Gamma.value]
  exact (Int.ofNat_ediv _ _).symm

theorem gamma_getD (t : List ℕ) (ht : t = (List.range 256).map Gamma.value)
    (i : ℕ) (h : i ≤ 255) : t.getD i 0 = Gamma.value i := by
  subst ht
  have h256 : i < 256 := Nat.lt_succ_of_le h
  simp [List.getD_eq_getElem?_getD, List.getElem?_map, List.getElem?_range h256]

theorem gammaValue_le (i : ℕ) (h : i ≤ 255) : Gamma.value i ≤ 255 := by
  have : 2 * i * i + 255 ≤ 130305 := by nlinarith
  calc Gamma.value i = (2 * i * i + 255) / 510 := rfl
    _ ≤ 130305 / 510 := Nat.div_le_div_right this
    _ = 255 := by norm_num

/-- The packed word in plain positional arithmetic: with every channel in
range, the bitwise ORs of `rgbw_to_int` assemble disjoint bytes, so the word
is the base-256 number `[corrected w, corrected g, corrected r, corrected b]`. -/
theorem rgbw_to_int_eq (c : Color) (hr : c.r ≤ 255) (hg : c.g ≤ 255)
    (hb : c.b ≤ 255) (hw : c.w ≤ 255) :
    rgbw_to_int c = Gamma.value c.w * 2 ^ 24 + Gamma.value c.g * 2 ^ 16 +
      Gamma.value c.r * 2 ^ 8 + Gamma.value c.b := by
  have hR := gammaValue_le c.r hr
  have hG := gammaValue_le c.g hg
  have hB := gammaValue_le c.b hb
  rw [rgbw_to_int, gamma_getD Gamma.R rfl c.r hr, gamma_getD Gamma.G rfl c.g hg,
    gamma_getD Gamma.B rfl c.b hb, gamma_getD Gamma.W rfl c.w hw]
  have e1 : Gamma.value c.r <<< 8 ||| Gamma.value c.b
      = 2 ^ 8 * Gamma.value c.r + Gamma.value c.b := by
    rw [Nat.shiftLeft_eq, Nat.mul_comm]
    exact (Nat.mul_add_lt_is_or (by omega) _).symm
  have e2 : Gamma.value c.g <<< 16 |||
        (2 ^ 8 * Gamma.value c.r + Gamma.value c.b)
      = 2 ^ 16 * Gamma.value c.g +
        (2 ^ 8 * Gamma.value c.r + Gamma.value c.b) := by
    rw [Nat.shiftLeft_eq, Nat.mul_comm]
    exact (Nat.mul_add_lt_is_or (by omega) _).symm
  have e3 : Gamma.value c.w <<< 24 |||
        (2 ^ 16 * Gamma.value c.g +
          (2 ^ 8 * Gamma.value c.r + Gamma.value c.b))
      = 2 ^ 24 * Gamma.value c.w +
        (2 ^ 16 * Gamma.value c.g +
          (2 ^ 8 * Gamma.value c.r + Gamma.value c.b)) := by
    rw [Nat.shiftLeft_eq, Nat.mul_comm]
    exact (Nat.mul_add_lt_is_or (by omega) _).symm
  rw [Nat.or_assoc, Nat.or_assoc, e1, e2, e3]
  ring

/-- The packed word fits in 32 bits. -/
theorem rgbw_to_int_lt (c : Color) (hr : c.r ≤ 255) (hg : c.g ≤ 255)
    (hb : c.b ≤ 255) (hw : c.w ≤ 255) : rgbw_to_int c < 2 ^ 32 := by
  have hR := gammaValue_le c.r hr
  have hG := gammaValue_le c.g hg
  have hB := gammaValue_le c.b hb
  have hW := gammaValue_le c.w hw
  rw [rgbw_to_int_eq c hr hg hb hw]
  omega

/-- Byte extraction from the packed word: the four `(v >>> k) &&& 0xff`
computations of `int_to_rgbw` recover exactly the corrected channel bytes. -/
theorem rgbw_to_int_bytes (c : Color) (hr : c.r ≤ 255) (hg : c.g ≤ 255)
    (hb : c.b ≤ 255) (hw : c.w ≤ 255) :
    (rgbw_to_int c >>> 24) &&& 0xff = Gamma.value c.w ∧
    (rgbw_to_int c >>> 16) &&& 0xff = Gamma.value c.g ∧
    (rgbw_to_int c >>> 8) &&& 0xff = Gamma.value c.r ∧
    rgbw_to_int c &&& 0xff = Gamma.value c.b := by
  have hR := gammaValue_le c.r hr
  have hG := gammaValue_le c.g hg
  have hB := gammaValue_le c.b hb
  have hW := gammaValue_le c.w hw
  rw [rgbw_to_int_eq c hr hg hb hw]
  have hmask : (0xff : ℕ) = 2 ^ 8 - 1 := by norm_num
  refine ⟨?_, ?_, ?_, ?_⟩
  · rw [Nat.shiftRight_eq_div_pow, hmask, Nat.and_pow_two_sub_one_eq_mod]
    omega
  · rw [Nat.shiftRight_eq_div_pow, hmask, Nat.and_pow_two_sub_one_eq_mod]
    omega
  · rw [Nat.shiftRight_eq_div_pow, hmask, Nat.and_pow_two_sub_one_eq_mod]
    omega
  · rw [hmask, Nat.and_pow_two_sub_one_eq_mod]
    omega

/-- C1: for every color with each channel in 0..255, `Pixels.rgbw_to_int`
(pack) equals the 32-bit value obtained by applying the spec's gamma curve
`corrected[i] = round(255 * (i/255)^2)` to each channel and packing the
corrected bytes as bits 24-31 = white, 16-23 = green, 8-15 = red,
0-7 = blue. -/
theorem C1_pack_gamma (c : Color) (hr : c.r ≤ 255) (hg : c.g ≤ 255)
    (hb : c.b ≤ 255) (hw : c.w ≤ 255) :
    (rgbw_to_int c : ℤ) =
      specCorrected c.w * 2 ^ 24 + specCorrected c.g * 2 ^ 16 +
        specCorrected c.r * 2 ^ 8 + specCorrected c.b ∧
    rgbw_to_int c < 2 ^ 32 := by
  refine ⟨?_, rgbw_to_int_lt c hr hg hb hw⟩
  rw [rgbw_to_int_eq c hr hg hb hw, gammaValue_eq_specCorrected,
    gammaValue_eq_specCorrected, gammaValue_eq_specCorrected,
    gammaValue_eq_specCorrected]
  push_cast
  ring

theorem C1_pack_gamma_witness :
    (1 : ℕ) ≤ 255 ∧ (2 : ℕ) ≤ 255 ∧ (3 : ℕ) ≤ 255 ∧ (255 : ℕ) ≤ 255 ∧
    ((rgbw_to_int ⟨1, 2, 3, 255⟩ : ℤ) =
      specCorrected 255 * 2 ^ 24 + specCorrected 2 * 2 ^ 16 +
        specCorrected 1 * 2 ^ 8 + specCorrected 3 ∧
      rgbw_to_int ⟨1, 2, 3, 255⟩ < 2 ^ 32) :=
  ⟨by decide, by decide, by decide, by decide,
    C1_pack_gamma ⟨1, 2, 3, 255⟩ (by decide) (by decide) (by decide) (by decide)⟩

/-- The four gamma tables are the same list. -/
theorem gammaG_eq : Gamma.G = Gamma.R := rfl

theorem gammaB_eq : Gamma.B = Gamma.R := rfl

theorem gammaW_eq : Gamma.W = Gamma.R := rfl

set_option maxHeartbeats 1000000 in
set_option maxRecDepth 100000 in
/-- For every channel value, `bisect_right` of its corrected byte lands
strictly above the original index, and one step below it the table still
holds the same corrected byte (the result is the far end of the byte's
plateau in the table). -/
theorem bisect_gamma_plateau : ∀ v < 256,
    v < bisect Gamma.R (Gamma.value v) ∧
    Gamma.value (bisect Gamma.R (Gamma.value v) - 1) = Gamma.value v := by
  decide

set_option maxHeartbeats 1000000 in
set_option maxRecDepth 100000 in
theorem bisect_gamma_255 : bisect Gamma.R 255 = 256 := by decide

/-- `unpack ∘ pack` as used by the worker. -/
def round_trip (c : Color) : Color := int_to_rgbw (rgbw_to_int c)

/-- The claim's reading of `unpack`'s recovery rule: the least index at
which the gamma table's value is `≥` the raw byte (`findIdx` returns the
list length when no entry qualifies).  Spec-side definition, used only to
compare the claimed rule against the source's `bisect.bisect`. -/
def leastGe (a : List ℕ) (x : ℕ) : ℕ := a.findIdx (fun e => decide (x ≤ e))

set_option maxRecDepth 100000 in
/-- C9, counterexample: at `c = (0,0,0,0)` the corrected byte is `0`; the
least index with table value `≥ 0` is `0`, but `unpack(pack(c))` yields 12
on every channel (`bisect.bisect` returns the first index whose value is
strictly greater than the byte), so the claimed recovery rule does not
describe the code. -/
theorem C9_counterexample :
    round_trip ⟨0, 0, 0, 0⟩ = ⟨12, 12, 12, 12⟩ ∧
    leastGe Gamma.R ((rgbw_to_int ⟨0, 0, 0, 0⟩ >>> 8) &&& 0xff) = 0 ∧
    (12 : ℕ) ≠ 0 := by
  refine ⟨by decide, by decide, by decide⟩

set_option maxRecDepth 100000 in
/-- C9, amended: `unpack(pack(c))` recovers each channel as the number of
gamma-table entries that are `≤` the corrected byte — equivalently the
least index whose table value strictly exceeds the byte — and this value
lands within one gamma-bucket of the original channel: it is strictly above
the original, and the index just below it still carries the original's
corrected byte (`Gamma.value (out - 1) = Gamma.value original`). -/
theorem C9_roundtrip_bucket (c : Color) (hr : c.r ≤ 255) (hg : c.g ≤ 255)
    (hb : c.b ≤ 255) (hw : c.w ≤ 255) :
    ((round_trip c).r = bisect Gamma.R (Gamma.value c.r) ∧
      c.r < (round_trip c).r ∧
      Gamma.value ((round_trip c).r - 1) = Gamma.value c.r) ∧
    ((round_trip c).g = bisect Gamma.R (Gamma.value c.g) ∧
      c.g < (round_trip c).g ∧
      Gamma.value ((round_trip c).g - 1) = Gamma.value c.g) ∧
    ((round_trip c).b = bisect Gamma.R (Gamma.value c.b) ∧
      c.b < (round_trip c).b ∧
      Gamma.value ((round_trip c).b - 1) = Gamma.value c.b) ∧
    ((round_trip c).w = bisect Gamma.R (Gamma.value c.w) ∧
      c.w < (round_trip c).w ∧
      Gamma.value ((round_trip c).w - 1) = Gamma.value c.w) := by
  obtain ⟨bw, bg, br, bb⟩ := rgbw_to_int_bytes c hr hg hb hw
  have er : (round_trip c).r = bisect Gamma.R (Gamma.value c.r) := by
    rw [round_trip, int_to_rgbw, br]
  have eg : (round_trip c).g = bisect Gamma.R (Gamma.value c.g) := by
    rw [round_trip, int_to_rgbw, gammaG_eq, bg]
  have eb : (round_trip c).b = bisect Gamma.R (Gamma.value c.b) := by
    rw [round_trip, int_to_rgbw, gammaB_eq, bb]
  have ew : (round_trip c).w = bisect Gamma.R (Gamma.value c.w) := by
    rw [round_trip, int_to_rgbw, gammaW_eq, bw]
  have pr := bisect_gamma_plateau c.r (by omega)
  have pg := bisect_gamma_plateau c.g (by omega)
  have pb := bisect_gamma_plateau c.b (by omega)
  have pw := bisect_gamma_plateau c.w (by omega)
  exact ⟨⟨er, er ▸ pr.1, er ▸ pr.2⟩, ⟨eg, eg ▸ pg.1, eg ▸ pg.2⟩,
    ⟨eb, eb ▸ pb.1, eb ▸ pb.2⟩, ⟨ew, ew ▸ pw.1, ew ▸ pw.2⟩⟩

set_option maxRecDepth 100000 in
theorem C9_roundtrip_bucket_witness :
    ((round_trip ⟨0, 5, 100, 255⟩).r = bisect Gamma.R (Gamma.value 0) ∧
      0 < (round_trip ⟨0, 5, 100, 255⟩).r ∧
      Gamma.value ((round_trip ⟨0, 5, 100, 255⟩).r - 1) = Gamma.value 0) ∧
    ((round_trip ⟨0, 5, 100, 255⟩).g = bisect Gamma.R (Gamma.value 5) ∧
      5 < (round_trip ⟨0, 5, 100, 255⟩).g ∧
      Gamma.value ((round_trip ⟨0, 5, 100, 255⟩).g - 1) = Gamma.value 5) ∧
    ((round_trip ⟨0, 5, 100, 255⟩).b = bisect Gamma.R (Gamma.value 100) ∧
      100 < (round_trip ⟨0, 5, 100, 255⟩).b ∧
      Gamma.value ((round_trip ⟨0, 5, 100, 255⟩).b - 1) = Gamma.value 100) ∧
    ((round_trip ⟨0, 5, 100, 255⟩).w = bisect Gamma.R (Gamma.value 255) ∧
      255 < (round_trip ⟨0, 5, 100, 255⟩).w ∧
      Gamma.value ((round_trip ⟨0, 5, 100, 255⟩).w - 1) = Gamma.value 255) :=
  C9_roundtrip_bucket ⟨0, 5, 100, 255⟩ (by decide) (by decide) (by decide)
    (by decide)

/-- C10: a channel at full intensity escapes the 8-bit range on round trip:
whenever a channel of `c` is 255, its corrected byte is 255, every table
entry is `≤ 255`, and `bisect.bisect` returns the insertion point 256 — an
output channel outside 0..255. -/
theorem C10_roundtrip_escape (c : Color) (hr : c.r ≤ 255) (hg : c.g ≤ 255)
    (hb : c.b ≤ 255) (hw : c.w ≤ 255) :
    (c.r = 255 → (rgbw_to_int c >>> 8) &&& 0xff = 255 ∧
      (round_trip c).r = 256) ∧
    (c.g = 255 → (rgbw_to_int c >>> 16) &&& 0xff = 255 ∧
      (round_trip c).g = 256) ∧
    (c.b = 255 → rgbw_to_int c &&& 0xff = 255 ∧
      (round_trip c).b = 256) ∧
    (c.w = 255 → (rgbw_to_int c >>> 24) &&& 0xff = 255 ∧
      (round_trip c).w = 256) := by
  obtain ⟨bw, bg, br, bb⟩ := rgbw_to_int_bytes c hr hg hb hw
  have h255 : Gamma.value 255 = 255 := by decide
  refine ⟨fun h => ?_, fun h => ?_, fun h => ?_, fun h => ?_⟩
  · rw [br, h, h255]
    refine ⟨rfl, ?_⟩
    rw [round_trip, int_to_rgbw, br, h, h255, bisect_gamma_255]
  · rw [bg, h, h255]
    refine ⟨rfl, ?_⟩
    rw [round_trip, int_to_rgbw, gammaG_eq, bg, h, h255, bisect_gamma_255]
  · rw [bb, h, h255]
    refine ⟨rfl, ?_⟩
    rw [round_trip, int_to_rgbw, gammaB_eq, bb, h, h255, bisect_gamma_255]
  · rw [bw, h, h255]
    refine ⟨rfl, ?_⟩
    rw [round_trip, int_to_rgbw, gammaW_eq, bw, h, h255, bisect_gamma_255]

theorem C10_roundtrip_escape_witness :
    ((255 : ℕ) = 255 →
      (rgbw_to_int ⟨255, 255, 255, 255⟩ >>> 8) &&& 0xff = 255 ∧
      (round_trip ⟨255, 255, 255, 255⟩).r = 256) ∧
    ((255 : ℕ) = 255 →
      (rgbw_to_int ⟨255, 255, 255, 255⟩ >>> 16) &&& 0xff = 255 ∧
      (round_trip ⟨255, 255, 255, 255⟩).g = 256) ∧
    ((255 : ℕ) = 255 →
      rgbw_to_int ⟨255, 255, 255, 255⟩ &&& 0xff = 255 ∧
      (round_trip ⟨255, 255, 255, 255⟩).b = 256) ∧
    ((255 : ℕ) = 255 →
      (rgbw_to_int ⟨255, 255, 255, 255⟩ >>> 24) &&& 0xff = 255 ∧
      (round_trip ⟨255, 255, 255, 255⟩).w = 256) :=
  C10_roundtrip_escape ⟨255, 255, 255, 255⟩ (by decide) (by decide) (by decide)
    (by decide)

/-- The `HM` (hour, minute) named tuple of `main.py`. -/
structure HM where
  h : ℕ
  m : ℕ
deriving DecidableEq

/-- Python's comparison of `HM` named tuples: lexicographic on `(h, m)`. -/
def hmLt (a b : HM) : Bool :=
  decide (a.h < b.h) || (decide (a.h = b.h) && decide (a.m < b.m))

/-- Minutes past midnight of an `HM`. -/
def minuteOfDay (x : HM) : ℕ := 60 * x.h + x.m

/-- Hour and minute of a timestamp given in seconds, with `datetime`
semantics for the time of day (whole days wrap; negative offsets fold into
the previous day). -/
def hmOf (s : ℤ) : HM :=
  ⟨(s % 86400).toNat / 3600, (s % 86400).toNat % 3600 / 60⟩

/-- Python `max` over a sequence of `HM`s; `none` for an empty sequence
(where Python raises `ValueError`).  On ties the earlier element wins,
matching Python's `max`. -/
def pyMaxHM : List HM → Option HM
  | [] => none
  | x :: xs => some (xs.foldl (fun a b => if hmLt a b then b else a) x)

/-- Python `min` over a sequence of `HM`s, same conventions. -/
def pyMinHM : List HM → Option HM
  | [] => none
  | x :: xs => some (xs.foldl (fun a b => if hmLt b a then b else a) x)

/-- `is_managed` of `main.py`: `now = HM((t+offset).hour, (t+offset).minute)`,
`dawn = max(hm for hm in managed_colors if hm.h < 12)`,
`dusk = min(hm for hm in managed_colors if hm.h > 12)`,
`return not dawn < now < dusk` (Python chains: `not (dawn < now and
now < dusk)`).  `none` models the `ValueError` of `max`/`min` on an empty
generator. -/
def is_managed (t offset : ℤ) (bps : List HM) : Option Bool :=
  match pyMaxHM (bps.filter (fun hm => decide (hm.h < 12))),
      pyMinHM (bps.filter (fun hm => decide (12 < hm.h))) with
  | some dawn, some dusk =>
      some (!(hmLt dawn (hmOf (t + offset)) && hmLt (hmOf (t + offset)) dusk))
  | _, _ => none

/-- The supervisor's static schedule `managed_colors`. -/
def managedColors : List (HM × String) :=
  [(⟨7, 0⟩, "00201000"), (⟨19, 0⟩, "20200020"), (⟨19, 30⟩, "20100000")]

/-- The schedule's breakpoint times. -/
def stdBps : List HM := managedColors.map Prod.fst

/-- The schedule tick's color selection inside `loop` of `main.py`:
`color, delay = None, 1e100`, then for each breakpoint
`d = 60 * (now.h - hm.h) + (now.m - hm.m)` and `if 0 <= d < delay:
color, delay = c, d`.  The float sentinel `1e100` strictly exceeds every
reachable integer `d`, so it is modelled by the integer `10 ^ 100`. -/
def selectColor (now : HM) (bps : List (HM × String)) : Option String × ℤ :=
  bps.foldl
    (fun acc bc =>
      let d : ℤ := 60 * ((now.h : ℤ) - (bc.1.h : ℤ)) +
        ((now.m : ℤ) - (bc.1.m : ℤ))
      if 0 ≤ d ∧ d < acc.2 then (some bc.2, d) else acc)
    (none, 10 ^ 100)

/-- The spec's forward minute distance `(now - breakpoint.minute) mod 1440`
(spec §4.4); spec-side definition, used to compare the claimed selection
rule against the source's. -/
def specForwardDist (now bp : HM) : ℤ :=
  ((minuteOfDay now : ℤ) - (minuteOfDay bp : ℤ)) % 1440

theorem hmLt_iff (a b : HM) (ha : a.m < 60) (hb : b.m < 60) :
    hmLt a b = true ↔ minuteOfDay a < minuteOfDay b := by
  simp only [hmLt, minuteOfDay, Bool.or_eq_true, Bool.and_eq_true,
    decide_eq_true_eq]
  omega

theorem hmOf_m_lt (s : ℤ) : (hmOf s).m < 60 := by
  simp only [hmOf]
  omega

theorem foldl_pick_mem (f : HM → HM → HM) (hf : ∀ a b, f a b = a ∨ f a b = b) :
    ∀ (l : List HM) (a : HM), l.foldl f a = a ∨ l.foldl f a ∈ l := by
  intro l
  induction l with
  | nil => intro a; exact Or.inl rfl
  | cons x xs ih =>
      intro a
      rcases ih (f a x) with h | h
      · rcases hf a x with h2 | h2
        · exact Or.inl (by rw [List.foldl_cons, h, h2])
        · exact Or.inr (by rw [List.foldl_cons, h, h2]; exact List.mem_cons_self x xs)
      · exact Or.inr (List.mem_cons_of_mem x h)

theorem pyMaxHM_mem (l : List HM) (x : HM) (h : pyMaxHM l = some x) : x ∈ l := by
  match l, h with
  | a :: xs, h =>
      have h2 : xs.foldl (fun a b => if hmLt a b then b else a) a = x :=
        Option.some_inj.mp h
      have hf : ∀ p q : HM, (if hmLt p q then q else p) = p ∨
          (if hmLt p q then q else p) = q := by
        intro p q
        by_cases hc : hmLt p q = true
        · rw [if_pos hc]; exact Or.inr rfl
        · rw [if_neg hc]; exact Or.inl rfl
      rcases foldl_pick_mem (fun p q => if hmLt p q then q else p) hf xs a
          with h3 | h3
      · rw [← h2, h3]; exact List.mem_cons_self a xs
      · rw [← h2]; exact List.mem_cons_of_mem a h3

theorem pyMinHM_mem (l : List HM) (x : HM) (h : pyMinHM l = some x) : x ∈ l := by
  match l, h with
  | a :: xs, h =>
      have h2 : xs.foldl (fun a b => if hmLt b a then b else a) a = x :=
        Option.some_inj.mp h
      have hf : ∀ p q : HM, (if hmLt q p then q else p) = p ∨
          (if hmLt q p then q else p) = q := by
        intro p q
        by_cases hc : hmLt q p = true
        · rw [if_pos hc]; exact Or.inr rfl
        · rw [if_neg hc]; exact Or.inl rfl
      rcases foldl_pick_mem (fun p q => if hmLt q p then q else p) hf xs a
          with h3 | h3
      · rw [← h2, h3]; exact List.mem_cons_self a xs
      · rw [← h2]; exact List.mem_cons_of_mem a h3

/-- C2, amended: with `dawn` the latest breakpoint with hour < 12 and
`dusk` the earliest with hour > 12, `is_managed` is false exactly when the
minute-of-day of `t + offset` lies in the OPEN window `(dawn, dusk)` —
both comparisons strict, so at exactly the dawn breakpoint minute the time
IS managed (the claim's half-open `[dawn, dusk)` fails there).  With
breakpoints 07:00, 19:00, 19:30 and offset 0: 08:00 is not managed, 20:00
is managed, 06:59 is managed, and 07:00 itself is managed. -/
theorem C2_is_managed :
    (∀ (t offset : ℤ) (bps : List HM) (dawn dusk : HM),
      (∀ x ∈ bps, x.m < 60) →
      pyMaxHM (bps.filter (fun hm => decide (hm.h < 12))) = some dawn →
      pyMinHM (bps.filter (fun hm => decide (12 < hm.h))) = some dusk →
      (is_managed t offset bps = some false ↔
        minuteOfDay dawn < minuteOfDay (hmOf (t + offset)) ∧
        minuteOfDay (hmOf (t + offset)) < minuteOfDay dusk)) ∧
    is_managed 28800 0 stdBps = some false ∧
    is_managed 72000 0 stdBps = some true ∧
    is_managed 25140 0 stdBps = some true ∧
    is_managed 25200 0 stdBps = some true := by
  refine ⟨?_, by decide, by decide, by decide, by decide⟩
  intro t offset bps dawn dusk hm60 hdawn hdusk
  have hdawn60 : dawn.m < 60 :=
    hm60 dawn (List.mem_of_mem_filter (pyMaxHM_mem _ _ hdawn))
  have hdusk60 : dusk.m < 60 :=
    hm60 dusk (List.mem_of_mem_filter (pyMinHM_mem _ _ hdusk))
  have hnow60 : (hmOf (t + offset)).m < 60 := hmOf_m_lt _
  rw [is_managed, hdawn, hdusk, Option.some_inj]
  rw [Bool.not_eq_false', Bool.and_eq_true, hmLt_iff dawn _ hdawn60 hnow60,
    hmLt_iff _ dusk hnow60 hdusk60]

/-- C2, counterexample: at exactly the dawn breakpoint (07:00, i.e. second
25200 of the day, offset 0) the minute-of-day equals dawn's, so the claim's
half-open window `[dawn, dusk)` would make the time unmanaged
(`is_managed = false`); the code's strict `dawn < now` makes it managed. -/
theorem C2_counterexample :
    pyMaxHM (stdBps.filter (fun hm => decide (hm.h < 12))) = some ⟨7, 0⟩ ∧
    minuteOfDay (hmOf (25200 + 0)) = minuteOfDay ⟨7, 0⟩ ∧
    is_managed 25200 0 stdBps = some true := by
  refine ⟨by decide, by decide, by decide⟩

theorem C2_is_managed_witness :
    (∀ x ∈ stdBps, x.m < 60) ∧
    pyMaxHM (stdBps.filter (fun hm => decide (hm.h < 12))) = some ⟨7, 0⟩ ∧
    pyMinHM (stdBps.filter (fun hm => decide (12 < hm.h))) = some ⟨19, 0⟩ ∧
    (is_managed 28800 0 stdBps = some false ↔
      minuteOfDay (⟨7, 0⟩ : HM) < minuteOfDay (hmOf (28800 + 0)) ∧
      minuteOfDay (hmOf (28800 + 0)) < minuteOfDay (⟨19, 0⟩ : HM)) :=
  ⟨by decide, by decide, by decide,
    C2_is_managed.1 28800 0 stdBps ⟨7, 0⟩ ⟨19, 0⟩ (by decide) (by decide)
      (by decide)⟩

set_option maxRecDepth 100000 in
/-- C3: behavior of the schedule tick's selection at the failing input.
At 06:00 (a managed time: 06:00 is not inside the open window
07:00..19:00), every `d = 60*(now.h - hm.h) + (now.m - hm.m)` is negative
— the code has no `mod 1440` — so no breakpoint passes `0 <= d` and the
selection leaves `color = None`, which `set_color(None)` then propagates.
The claim's wrap-around formula `(now - bp.minute) mod 1440` would instead
select the 19:30 breakpoint (distance 630, the minimum of 1380/660/630).
At 19:10 the code does select the 19:00 breakpoint with distance 10,
matching the claim's positive example. -/
theorem C3_schedule_selection :
    (selectColor (hmOf (21600 + 0)) managedColors).1 = none ∧
    is_managed 21600 0 stdBps = some true ∧
    selectColor ⟨19, 10⟩ managedColors = (some "20200020", 10) ∧
    specForwardDist ⟨6, 0⟩ ⟨7, 0⟩ = 1380 ∧
    specForwardDist ⟨6, 0⟩ ⟨19, 0⟩ = 660 ∧
    specForwardDist ⟨6, 0⟩ ⟨19, 30⟩ = 630 := by
  refine ⟨by decide, by decide, by decide, by decide, by decide, by decide⟩

/-- `Globe.is_night`: `not 7 <= self.time.hour <= 18`. -/
def is_night (hour : ℕ) : Bool := !(decide (7 ≤ hour) && decide (hour ≤ 18))

/-- `Globe.nightlight_color`: with `is_dusk = (hour == 19 and minute <= 30)`
and `is_dawn = (hour == 6 and minute >= 55)`, returns
`(60,40,20,0) if is_dusk else (40,20,0,0) if is_night else
(20,60,40,0) if is_dawn else self.color` — note the source tests `is_night`
BEFORE `is_dawn`. -/
def nightlight_color (t : HM) (color : Color) : Color :=
  if decide (t.h = 19) && decide (t.m ≤ 30) then ⟨60, 40, 20, 0⟩
  else if is_night t.h then ⟨40, 20, 0, 0⟩
  else if decide (t.h = 6) && decide (55 ≤ t.m) then ⟨20, 60, 40, 0⟩
  else color

/-- C4, counterexample: at 06:55 the code returns the dim night default
`(40,20,0,0)`, not the claimed dawn tint `(20,60,40,0)`: hour 6 satisfies
`is_night`, which the source tests before `is_dawn`, so the dawn branch is
unreachable. -/
theorem C4_counterexample :
    nightlight_color ⟨6, 55⟩ ⟨1, 2, 3, 4⟩ = ⟨40, 20, 0, 0⟩ ∧
    (⟨40, 20, 0, 0⟩ : Color) ≠ ⟨20, 60, 40, 0⟩ := by
  refine ⟨by decide, by decide⟩

/-- C4, amended: the dusk tint `(60,40,20,0)` is returned for hour 19 with
minute ≤ 30; every other night hour — including all of hour 6, so in
particular hour 6 with minute ≥ 55, whose dawn branch is dead code — gets
the dim default `(40,20,0,0)`; day hours (7..18) leave the current color
unchanged. -/
theorem C4_nightlight (t : HM) (c : Color) :
    (t.h = 19 ∧ t.m ≤ 30 → nightlight_color t c = ⟨60, 40, 20, 0⟩) ∧
    (t.h = 6 ∧ 55 ≤ t.m → nightlight_color t c = ⟨40, 20, 0, 0⟩) ∧
    (is_night t.h = true ∧ ¬(t.h = 19 ∧ t.m ≤ 30) →
      nightlight_color t c = ⟨40, 20, 0, 0⟩) ∧
    (is_night t.h = false → ¬(t.h = 19 ∧ t.m ≤ 30) →
      nightlight_color t c = c) := by
  unfold nightlight_color is_night
  refine ⟨?_, ?_, ?_, ?_⟩
  · rintro ⟨h19, h30⟩
    rw [if_pos (by simp [h19, h30])]
  · rintro ⟨h6, h55⟩
    rw [if_neg (by simp [h6]), if_pos (by simp [h6])]
  · rintro ⟨hn, hd⟩
    have hd2 : ¬((decide (t.h = 19) && decide (t.m ≤ 30)) = true) := by
      simp only [Bool.and_eq_true, decide_eq_true_eq]
      exact hd
    rw [if_neg hd2, if_pos hn]
  · intro hn hd
    have hd2 : ¬((decide (t.h = 19) && decide (t.m ≤ 30)) = true) := by
      simp only [Bool.and_eq_true, decide_eq_true_eq]
      exact hd
    simp only [Bool.not_eq_false', Bool.and_eq_true, decide_eq_true_eq] at hn
    rw [if_neg hd2, if_neg (by simp [hn.1, hn.2]),
      if_neg (by simp only [Bool.and_eq_true, decide_eq_true_eq]; omega)]

theorem C4_nightlight_witness :
    ((6 : ℕ) = 6 ∧ (55 : ℕ) ≤ 55 →
      nightlight_color ⟨6, 55⟩ ⟨9, 9, 9, 9⟩ = ⟨40, 20, 0, 0⟩) ∧
    ((19 : ℕ) = 19 ∧ (10 : ℕ) ≤ 30 →
      nightlight_color ⟨19, 10⟩ ⟨9, 9, 9, 9⟩ = ⟨60, 40, 20, 0⟩) :=
  ⟨(C4_nightlight ⟨6, 55⟩ ⟨9, 9, 9, 9⟩).2.1,
    (C4_nightlight ⟨19, 10⟩ ⟨9, 9, 9, 9⟩).1⟩

/-- The worker's `Mode` enum in `globe.py`:
`RGBW = 0, WALK = 1, DANCE = 2, NIGHTLIGHT = 3` (no MANAGED member). -/
inductive Mode where
  | RGBW
  | WALK
  | DANCE
  | NIGHTLIGHT
deriving DecidableEq

/-- `Mode.value` ordinals. -/
def Mode.value : Mode → ℕ
  | .RGBW => 0
  | .WALK => 1
  | .DANCE => 2
  | .NIGHTLIGHT => 3

/-- The supervisor enum in `common.py`:
`MANAGED = 0, RGBW = 1, LAVA = 2, FIREWORKS = 3`. -/
inductive SupMode where
  | MANAGED
  | RGBW
  | LAVA
  | FIREWORKS
deriving DecidableEq

/-- `SupMode` ordinals. -/
def SupMode.value : SupMode → ℕ
  | .MANAGED => 0
  | .RGBW => 1
  | .LAVA => 2
  | .FIREWORKS => 3

/-- The index arithmetic of `on_mode_pressed` in `main.py`:
`next_mode = (mode.value + 1) % len(globe.Mode)` followed by
`globe.Mode(next_mode or 1)` — Python's `x or 1` replaces a zero by 1.
Both candidate enums (`globe.py`'s `Mode` and `common.py`'s `Mode`,
modelled as `SupMode`) have 4 members, so `len(globe.Mode) = 4`. -/
def on_mode_next (v : ℕ) : ℕ :=
  if (v + 1) % 4 = 0 then 1 else (v + 1) % 4

/-- `on_mode_pressed`: guarded by `if not is_managed()`; returns `none`
(no transition) when managed. -/
def on_mode_pressed (managed : Bool) (v : ℕ) : Option ℕ :=
  if managed then none else some (on_mode_next v)

/-- C5, counterexample: starting from the non-zero mode index 1 (a
non-MANAGED mode under the supervisor's enum), four consecutive presses
visit 2, 3, 1, 2 — only three distinct indices, with index 0 never
produced (so under `globe.py`'s cited enum the worker mode RGBW, index 0,
is unreachable as well): the presses do not cycle through 4 worker
modes. -/
theorem C5_counterexample :
    on_mode_next 1 = 2 ∧ on_mode_next 2 = 3 ∧ on_mode_next 3 = 1 ∧
    on_mode_next (on_mode_next (on_mode_next (on_mode_next 1))) = 2 ∧
    (0 : ℕ) ∉ [on_mode_next 1, on_mode_next 2, on_mode_next 3] ∧
    [on_mode_next 1, on_mode_next 2, on_mode_next 3].length = 3 := by
  refine ⟨by decide, by decide, by decide, by decide, by decide, by decide⟩

/-- C5, amended: the manual mode-advance is legal only when not managed;
it maps index `v` to `(v + 1) mod 4`, except that a wrap to 0 — MANAGED's
index in the supervisor's enum — is replaced by 1.  Hence the result is
never 0 and repeated presses cycle through exactly the THREE indices
1, 2, 3 (under `common.py`'s enum: RGBW, LAVA, FIREWORKS; MANAGED is never
selected). -/
theorem C5_mode_advance (v : ℕ) (hv : v < 4) :
    on_mode_pressed true v = none ∧
    on_mode_pressed false v = some (on_mode_next v) ∧
    on_mode_next v ≠ 0 ∧
    on_mode_next v = (if v = 3 then 1 else v + 1) ∧
    on_mode_next v ∈ ({1, 2, 3} : Set ℕ) := by
  unfold on_mode_pressed on_mode_next
  interval_cases v <;>
    exact ⟨rfl, rfl, by decide, by decide, by decide⟩

theorem C5_mode_advance_witness :
    on_mode_pressed true 3 = none ∧
    on_mode_pressed false 3 = some (on_mode_next 3) ∧
    on_mode_next 3 ≠ 0 ∧
    on_mode_next 3 = (if (3 : ℕ) = 3 then 1 else 3 + 1) ∧
    on_mode_next 3 ∈ ({1, 2, 3} : Set ℕ) :=
  C5_mode_advance 3 (by decide)

/-- One channel's move per tick of `Globe._walk_loop`:
`if cchan < tchan: color[j] += 1` and `if cchan > tchan: color[j] -= 1`
(at most one test fires). -/
def stepToward (c t : ℕ) : ℕ :=
  if c < t then c + 1 else if t < c then c - 1 else c

/-- One tick of the walk loop body: every channel steps by one toward the
target (the loop's guard `on ∧ mode == WALK` and the resampling of an
exhausted target are outside this pure color update). -/
def walkStep (c t : Color) : Color :=
  ⟨stepToward c.r t.r, stepToward c.g t.g, stepToward c.b t.b,
    stepToward c.w t.w⟩

/-- `k` consecutive walk ticks with a fixed target. -/
def walkIter (t : Color) : ℕ → Color → Color
  | 0, c => c
  | k + 1, c => walkIter t k (walkStep c t)

/-- Chebyshev distance between two colors:
`max(|a.r-b.r|, |a.g-b.g|, |a.b-b.b|, |a.w-b.w|)`. -/
def cheb (a b : Color) : ℕ :=
  max (max (Nat.dist a.r b.r) (Nat.dist a.g b.g))
    (max (Nat.dist a.b b.b) (Nat.dist a.w b.w))

/-- Scalar version of the iterated walk on one channel. -/
def scalarIter (t : ℕ) : ℕ → ℕ → ℕ
  | 0, c => c
  | k + 1, c => scalarIter t k (stepToward c t)

theorem stepToward_dist (c t : ℕ) :
    Nat.dist (stepToward c t) t = Nat.dist c t - 1 := by
  unfold stepToward Nat.dist
  split_ifs <;> omega

theorem stepToward_between (c t : ℕ) :
    min c t ≤ stepToward c t ∧ stepToward c t ≤ max c t := by
  unfold stepToward
  split_ifs <;> omega

theorem walkIter_channels (t : Color) (k : ℕ) (c : Color) :
    walkIter t k c = ⟨scalarIter t.r k c.r, scalarIter t.g k c.g,
      scalarIter t.b k c.b, scalarIter t.w k c.w⟩ := by
  induction k generalizing c with
  | zero => rfl
  | succ k ih => exact ih (walkStep c t)

theorem scalarIter_dist (t k c : ℕ) :
    Nat.dist (scalarIter t k c) t = Nat.dist c t - k := by
  induction k generalizing c with
  | zero => rfl
  | succ k ih =>
      have h := ih (stepToward c t)
      rw [scalarIter, h, stepToward_dist]
      omega

theorem scalarIter_between (t k c : ℕ) :
    min c t ≤ scalarIter t k c ∧ scalarIter t k c ≤ max c t := by
  induction k generalizing c with
  | zero => exact ⟨Nat.min_le_left c t, Nat.le_max_left c t⟩
  | succ k ih =>
      have hb := stepToward_between c t
      have h2 := ih (stepToward c t)
      rw [scalarIter]
      constructor
      · calc min c t ≤ min (stepToward c t) t := by omega
          _ ≤ scalarIter t k (stepToward c t) := h2.1
      · calc scalarIter t k (stepToward c t) ≤ max (stepToward c t) t := h2.2
          _ ≤ max c t := by omega

/-- C6: with target `b` fixed, each walk tick moves every channel by
exactly ±1 toward its target (already-arrived channels stay), no channel
ever leaves the interval between its start and its target (no overshoot),
the color reaches `b` after exactly `cheb a b` ticks — the max of the four
channel distances — and not earlier. -/
theorem C6_walk (a b : Color) :
    walkIter b (cheb a b) a = b ∧
    (∀ j, j < cheb a b → walkIter b j a ≠ b) ∧
    (∀ j, (min a.r b.r ≤ (walkIter b j a).r ∧ (walkIter b j a).r ≤ max a.r b.r) ∧
      (min a.g b.g ≤ (walkIter b j a).g ∧ (walkIter b j a).g ≤ max a.g b.g) ∧
      (min a.b b.b ≤ (walkIter b j a).b ∧ (walkIter b j a).b ≤ max a.b b.b) ∧
      (min a.w b.w ≤ (walkIter b j a).w ∧ (walkIter b j a).w ≤ max a.w b.w)) ∧
    (∀ x t : ℕ, (x < t → stepToward x t = x + 1) ∧
      (t < x → stepToward x t = x - 1) ∧ (x = t → stepToward x t = x)) := by
  have hr : Nat.dist a.r b.r ≤ cheb a b := by unfold cheb; omega
  have hg : Nat.dist a.g b.g ≤ cheb a b := by unfold cheb; omega
  have hb : Nat.dist a.b b.b ≤ cheb a b := by unfold cheb; omega
  have hw : Nat.dist a.w b.w ≤ cheb a b := by unfold cheb; omega
  refine ⟨?_, ?_, ?_, ?_⟩
  · rw [walkIter_channels]
    have er : scalarIter b.r (cheb a b) a.r = b.r := by
      have := scalarIter_dist b.r (cheb a b) a.r
      exact Nat.eq_of_dist_eq_zero (by omega)
    have eg : scalarIter b.g (cheb a b) a.g = b.g := by
      have := scalarIter_dist b.g (cheb a b) a.g
      exact Nat.eq_of_dist_eq_zero (by omega)
    have eb : scalarIter b.b (cheb a b) a.b = b.b := by
      have := scalarIter_dist b.b (cheb a b) a.b
      exact Nat.eq_of_dist_eq_zero (by omega)
    have ew : scalarIter b.w (cheb a b) a.w = b.w := by
      have := scalarIter_dist b.w (cheb a b) a.w
      exact Nat.eq_of_dist_eq_zero (by omega)
    rw [er, eg, eb, ew]
  · intro j hj heq
    rw [walkIter_channels] at heq
    have hrr : scalarIter b.r j a.r = b.r := congrArg Color.r heq
    have hgg : scalarIter b.g j a.g = b.g := congrArg Color.g heq
    have hbb : scalarIter b.b j a.b = b.b := congrArg Color.b heq
    have hww : scalarIter b.w j a.w = b.w := congrArg Color.w heq
    have dr := scalarIter_dist b.r j a.r
    have dg := scalarIter_dist b.g j a.g
    have db := scalarIter_dist b.b j a.b
    have dw := scalarIter_dist b.w j a.w
    rw [hrr] at dr
    rw [hgg] at dg
    rw [hbb] at db
    rw [hww] at dw
    rw [Nat.dist_self] at dr dg db dw
    unfold cheb at hj
    omega
  · intro j
    rw [walkIter_channels]
    exact ⟨scalarIter_between b.r j a.r, scalarIter_between b.g j a.g,
      scalarIter_between b.b j a.b, scalarIter_between b.w j a.w⟩
  · intro x t
    unfold stepToward
    refine ⟨fun h => by rw [if_pos h], fun h => ?_, fun h => ?_⟩
    · rw [if_neg (by omega), if_pos h]
    · rw [if_neg (by omega), if_neg (by omega)]

theorem C6_walk_witness :
    walkIter ⟨5, 0, 0, 3⟩ (cheb ⟨0, 10, 255, 3⟩ ⟨5, 0, 0, 3⟩) ⟨0, 10, 255, 3⟩
      = ⟨5, 0, 0, 3⟩ ∧
    walkIter ⟨5, 0, 0, 3⟩ 7 ⟨0, 10, 255, 3⟩ ≠ ⟨5, 0, 0, 3⟩ :=
  ⟨(C6_walk ⟨0, 10, 255, 3⟩ ⟨5, 0, 0, 3⟩).1,
    (C6_walk ⟨0, 10, 255, 3⟩ ⟨5, 0, 0, 3⟩).2.1 7 (by decide)⟩

/-- Statistics of one run of `set_color` in `main.py`: how many POST
attempts were issued, how many 3-second sleeps were taken, and whether an
attempt succeeded. -/
structure RunStats where
  sent : ℕ
  sleeps : ℕ
  success : Bool
deriving DecidableEq

/-- The body of `set_color`'s `for i in range(10)` loop, starting at
attempt index `i` with `fuel` iterations left: try the POST (`ok i` tells
whether attempt `i` succeeds), `break` on success, otherwise
`await asyncio.sleep(3)` and continue; the bare `except` swallows every
failure, so the loop always returns. -/
def set_color_go (ok : ℕ → Bool) (i : ℕ) : ℕ → RunStats
  | 0 => ⟨0, 0, false⟩
  | fuel + 1 =>
      if ok i then ⟨1, 0, true⟩
      else
        let r := set_color_go ok (i + 1) fuel
        ⟨r.sent + 1, r.sleeps + 1, r.success⟩

/-- `set_color(c)`: up to 10 attempts starting at index 0. -/
def set_color (ok : ℕ → Bool) : RunStats := set_color_go ok 0 10

theorem set_color_go_le (ok : ℕ → Bool) (fuel i : ℕ) :
    (set_color_go ok i fuel).sent ≤ fuel ∧
    (set_color_go ok i fuel).sleeps ≤ fuel := by
  induction fuel generalizing i with
  | zero => exact ⟨Nat.le_refl 0, Nat.le_refl 0⟩
  | succ fuel ih =>
      rw [set_color_go]
      by_cases h : ok i = true
      · rw [if_pos h]
        exact ⟨Nat.succ_le_succ (Nat.zero_le fuel), Nat.zero_le (fuel + 1)⟩
      · rw [if_neg h]
        have := ih (i + 1)
        exact ⟨by simpa using Nat.succ_le_succ this.1,
          by simpa using Nat.succ_le_succ this.2⟩

theorem set_color_go_first_success (ok : ℕ → Bool) (fuel i j : ℕ)
    (hj : j < fuel) (hfail : ∀ k, k < j → ok (i + k) = false)
    (hok : ok (i + j) = true) :
    set_color_go ok i fuel = ⟨j + 1, j, true⟩ := by
  induction fuel generalizing i j with
  | zero => omega
  | succ fuel ih =>
      rw [set_color_go]
      match j, hj with
      | 0, _ =>
          rw [if_pos (by simpa using hok)]
      | j + 1, hj =>
          have h0 : ok i = false := by simpa using hfail 0 (Nat.succ_pos j)
          rw [if_neg (by simp [h0])]
          have hstep : set_color_go ok (i + 1) fuel = ⟨j + 1, j, true⟩ := by
            refine ih (i + 1) j (by omega) ?_ ?_
            · intro k hk
              have := hfail (k + 1) (by omega)
              simpa [Nat.add_assoc, Nat.add_comm 1 k] using this
            · simpa [Nat.add_assoc, Nat.add_comm 1 j] using hok
          rw [hstep]

theorem set_color_go_all_fail (ok : ℕ → Bool) (fuel i : ℕ)
    (hfail : ∀ k, k < fuel → ok (i + k) = false) :
    set_color_go ok i fuel = ⟨fuel, fuel, false⟩ := by
  induction fuel generalizing i with
  | zero => rfl
  | succ fuel ih =>
      rw [set_color_go]
      have h0 : ok i = false := by simpa using hfail 0 (Nat.succ_pos fuel)
      rw [if_neg (by simp [h0])]
      have hstep : set_color_go ok (i + 1) fuel = ⟨fuel, fuel, false⟩ := by
        refine ih (i + 1) ?_
        intro k hk
        have := hfail (k + 1) (by omega)
        simpa [Nat.add_assoc, Nat.add_comm 1 k] using this
      rw [hstep]

/-- C7: `set_color` issues at most 10 POST attempts, with one 3-second
sleep after each failed attempt; if the first success is attempt `j`
(0-based, within the first 10) then exactly `j + 1` attempts are issued —
in particular a success on the 10th attempt (j = 9) issues 10 attempts and
no 11th — and the run reports success; if all 10 attempts fail the loop
still returns normally (the bare `except` swallows the failure) with 10
attempts, 10 sleeps and no success. -/
theorem C7_set_color (ok : ℕ → Bool) :
    ((set_color ok).sent ≤ 10 ∧ (set_color ok).sleeps ≤ 10) ∧
    (∀ j, j < 10 → (∀ k, k < j → ok k = false) → ok j = true →
      set_color ok = ⟨j + 1, j, true⟩) ∧
    ((∀ k, k < 10 → ok k = false) → set_color ok = ⟨10, 10, false⟩) := by
  refine ⟨set_color_go_le ok 10 0, ?_, ?_⟩
  · intro j hj hfail hok
    exact set_color_go_first_success ok 10 0 j hj
      (by simpa using hfail) (by simpa using hok)
  · intro hfail
    exact set_color_go_all_fail ok 10 0 (by simpa using hfail)

/-- C7 witness: a channel failing the first 9 attempts and succeeding on
the 10th yields exactly 10 attempts (no 11th), 9 sleeps, success. -/
theorem C7_set_color_witness :
    set_color (fun i => decide (i = 9)) = ⟨10, 9, true⟩ :=
  (C7_set_color (fun i => decide (i = 9))).2.1 9 (by decide)
    (by decide) (by decide)

/-- The characters Python's `int(str, 16)` treats as whitespace within
ASCII: tab, LF, VT, FF, CR, the separators `\x1c`-`\x1f`, and the space.
(Outside ASCII, CPython additionally strips `\x85` and the Unicode spaces
and maps Unicode decimal digits to their ASCII digits before parsing; all
of those code points are ≥ 128, so within ASCII this set is exact.) -/
def isPySpace (c : Char) : Bool :=
  c = ' ' || c = '\t' || c = '\n' || c = '\r' || c = '\x0b' || c = '\x0c' ||
    c = '\x1c' || c = '\x1d' || c = '\x1e' || c = '\x1f'

/-- Value of one hexadecimal digit; `none` for any other character. -/
def hexDigitVal (c : Char) : Option ℕ :=
  if '0' ≤ c ∧ c ≤ '9' then some (c.toNat - '0'.toNat)
  else if 'a' ≤ c ∧ c ≤ 'f' then some (c.toNat - 'a'.toNat + 10)
  else if 'A' ≤ c ∧ c ≤ 'F' then some (c.toNat - 'A'.toNat + 10)
  else none

/-- Accumulating parse of a run of hex digits. -/
def parseDigitsGo (acc : ℕ) : List Char → Option ℕ
  | [] => some acc
  | c :: cs =>
      match hexDigitVal c with
      | some d => parseDigitsGo (16 * acc + d) cs
      | none => none

/-- The digit part of `int(s, 16)`: a nonempty run of hex digits.
(Python additionally allows single underscores BETWEEN digits, which can
only matter for chunks of length ≥ 3; `hex_to_rgbw` only ever parses 1-
and 2-character chunks, for which every underscore placement is a Python
error as well, so it is not modelled.) -/
def parseDigits : List Char → Option ℕ
  | [] => none
  | c :: cs => parseDigitsGo 0 (c :: cs)

/-- Python `int(s, 16)`: strip surrounding whitespace, allow one optional
sign, then require a nonempty run of hex digits; `none` models the
`ValueError`.  This is exact for strings of ASCII characters of length
≤ 2 — the only chunks `hex_to_rgbw` ever parses (Python's digit-group
underscores only become legal at length ≥ 3, and the non-ASCII behavior
of CPython — Unicode decimal digits and extra Unicode whitespace — is
confined to code points ≥ 128, excluded by the ASCII hypotheses of the
theorems below). -/
def pyIntHex (s : List Char) : Option ℤ :=
  match (((s.dropWhile isPySpace).reverse.dropWhile isPySpace).reverse :
      List Char) with
  | '+' :: rest => (parseDigits rest).map (fun n => (n : ℤ))
  | '-' :: rest => (parseDigits rest).map (fun n => -(n : ℤ))
  | rest => (parseDigits rest).map (fun n => (n : ℤ))

/-- `if x.startswith('#'): x = x[1:]`. -/
def stripHash : List Char → List Char
  | '#' :: rest => rest
  | x => x

/-- The pair chunks `x[0:2], x[2:4], x[4:6], x[6:8]`: for a length-8 list
this produces exactly the source's four 2-character slices. -/
def pairsOf : List Char → List (List Char)
  | a :: b :: rest => [a, b] :: pairsOf rest
  | _ => []

/-- `hex_to_rgbw` of `globe.py`.  `Except.error ()` where Python raises
(`int(c, 16)` on a non-parsable chunk, evaluated eagerly by `list(...)`),
`Except.ok none` where the source returns `None` (digit count, after the
optional `#` strip and padding, not in {3, 4, 6, 8}), and
`Except.ok (some values)` otherwise. -/
def hex_to_rgbw (x0 : List Char) : Except Unit (Option (List ℤ)) :=
  let x1 := stripHash x0
  let x2 := if x1.length = 3 then x1 ++ ['0'] else x1
  if x2.length = 4 then
    match (x2.map (fun c => [c])).mapM pyIntHex with
    | some vals => .ok (some vals)
    | none => .error ()
  else
    let x3 := if x2.length = 6 then x2 ++ ['0', '0'] else x2
    if x3.length = 8 then
      match (pairsOf x3).mapM pyIntHex with
      | some vals => .ok (some vals)
      | none => .error ()
    else .ok none

/-- The worker state touched by the `POST /` color branch of `globe.py`. -/
structure WorkerState where
  color : Option (List ℤ)
  mode : Mode
deriving DecidableEq

/-- The `color` branch of the worker's POST handler:
`globe.color = hex_to_rgbw(color)` — an exception inside `hex_to_rgbw`
propagates (aiohttp answers 500 and the assignment never happens); the
next source line `globe.mode == Mode.RGBW` is a comparison, not an
assignment, so `mode` is never modified. -/
def post_color (st : WorkerState) (input : List Char) :
    Except Unit WorkerState :=
  match hex_to_rgbw input with
  | .error e => .error e
  | .ok v => .ok { st with color := v }

theorem mapM_none_of_mem {α β : Type} (f : α → Option β) (l : List α)
    (a : α) (ha : a ∈ l) (hf : f a = none) : l.mapM f = none := by
  induction l with
  | nil => cases ha
  | cons x xs ih =>
      rw [List.mapM_cons]
      rcases List.mem_cons.mp ha with h | h
      · rw [h] at hf
        rw [hf]
        rfl
      · cases hx : f x
        · rfl
        · rw [ih h]
          rfl

/-- C8, counterexample: `hex_to_rgbw("zzzz")` has an accepted digit count
but non-hex characters, and it RAISES (`int('z', 16)` is a `ValueError`)
instead of returning no value; and for the wrong-digit-count input `"12"`
the codec returns `None`, which the POST handler then ASSIGNS
(`globe.color = None`), changing the worker's color state. -/
theorem C8_counterexample :
    hex_to_rgbw ['z', 'z', 'z', 'z'] = .error () ∧
    post_color ⟨some [1, 2, 3, 4], Mode.RGBW⟩ ['1', '2']
      = .ok ⟨none, Mode.RGBW⟩ ∧
    (some [1, 2, 3, 4] : Option (List ℤ)) ≠ none := by
  refine ⟨rfl, rfl, by decide⟩

theorem pairsOf_append (l2 : List Char) :
    ∀ l1 : List Char, l1.length % 2 = 0 →
      pairsOf (l1 ++ l2) = pairsOf l1 ++ pairsOf l2
  | [], _ => rfl
  | [a], h => by simp at h
  | a :: b :: rest, h => by
      have h2 : rest.length % 2 = 0 := by
        simp only [List.length_cons] at h
        omega
      rw [List.cons_append, List.cons_append]
      show [a, b] :: pairsOf (rest ++ l2) = ([a, b] :: pairsOf rest) ++ pairsOf l2
      rw [pairsOf_append l2 rest h2, List.cons_append]

/-- C8, amended: for a wrong digit count (not 3, 4, 6, or 8 after the
optional `#` strip) the codec returns no value, but the POST handler then
sets the worker color to `None` — a state change; for an accepted digit
count containing a chunk `int(c, 16)` cannot parse, the codec RAISES, the
error propagates out of the handler, and the state is left unchanged; the
handler never modifies the mode (the source's `globe.mode == Mode.RGBW`
is a comparison, not an assignment).  The raising clauses carry an ASCII
hypothesis: within ASCII the embedded `int(s, 16)` is exact (CPython's
extra transforms — Unicode decimal digits, `\x85` and Unicode spaces —
only concern code points ≥ 128). -/
theorem C8_hex_malformed (x : List Char) (st : WorkerState) :
    ((stripHash x).length ≠ 3 → (stripHash x).length ≠ 4 →
      (stripHash x).length ≠ 6 → (stripHash x).length ≠ 8 →
      hex_to_rgbw x = .ok none ∧
      post_color st x = .ok { st with color := none }) ∧
    (∀ e, hex_to_rgbw x = .error e → post_color st x = .error e) ∧
    (∀ st2, post_color st x = .ok st2 → st2.mode = st.mode) ∧
    ((∀ c ∈ x, c.toNat < 128) →
      ((stripHash x).length = 3 ∨ (stripHash x).length = 4 →
        (∃ c ∈ stripHash x, pyIntHex [c] = none) →
          hex_to_rgbw x = .error ()) ∧
      ((stripHash x).length = 6 ∨ (stripHash x).length = 8 →
        (∃ p ∈ pairsOf (stripHash x), pyIntHex p = none) →
          hex_to_rgbw x = .error ())) := by
  refine ⟨?_, ?_, ?_, ?_⟩
  · intro h3 h4 h6 h8
    have hnone : hex_to_rgbw x = .ok none := by
      rw [hex_to_rgbw]
      simp only [if_neg h3, if_neg h4, if_neg h6, if_neg h8]
    exact ⟨hnone, by rw [post_color, hnone]⟩
  · intro e he
    rw [post_color, he]
  · intro st2 hst
    rw [post_color] at hst
    cases h : hex_to_rgbw x with
    | error e => rw [h] at hst; cases hst
    | ok v =>
        rw [h] at hst
        injection hst with h2
        rw [← h2]
  · intro _
    constructor
    · rintro (h3 | h4) ⟨c, hc, hcnone⟩
      · have hmem : [c] ∈ ((stripHash x ++ ['0']).map (fun c => [c])) :=
          List.mem_map_of_mem (fun c => [c]) (List.mem_append_left _ hc)
        have hmap :
            ((stripHash x ++ ['0']).map (fun c => [c])).mapM pyIntHex
              = none :=
          mapM_none_of_mem pyIntHex _ [c] hmem hcnone
        have hlen4 : (stripHash x ++ ['0']).length = 4 := by simp [h3]
        rw [hex_to_rgbw]
        simp only [if_pos h3, if_pos hlen4, hmap]
      · have h3 : ¬((stripHash x).length = 3) := by omega
        have hmem : [c] ∈ ((stripHash x).map (fun c => [c])) :=
          List.mem_map_of_mem (fun c => [c]) hc
        have hmap : ((stripHash x).map (fun c => [c])).mapM pyIntHex = none :=
          mapM_none_of_mem pyIntHex _ [c] hmem hcnone
        rw [hex_to_rgbw]
        simp only [if_neg h3, if_pos h4, hmap]
    · rintro (h6 | h8) ⟨p, hp, hpnone⟩
      · have h3 : ¬((stripHash x).length = 3) := by omega
        have h4 : ¬((stripHash x).length = 4) := by omega
        have hpairs : pairsOf (stripHash x ++ ['0', '0'])
            = pairsOf (stripHash x) ++ pairsOf ['0', '0'] :=
          pairsOf_append ['0', '0'] (stripHash x) (by omega)
        have hmem : p ∈ pairsOf (stripHash x ++ ['0', '0']) := by
          rw [hpairs]
          exact List.mem_append_left _ hp
        have hmap : (pairsOf (stripHash x ++ ['0', '0'])).mapM pyIntHex
            = none :=
          mapM_none_of_mem pyIntHex _ p hmem hpnone
        have hlen8 : (stripHash x ++ ['0', '0']).length = 8 := by simp [h6]
        rw [hex_to_rgbw]
        simp only [if_neg h3, if_neg h4, if_pos h6, if_pos hlen8, hmap]
      · have h3 : ¬((stripHash x).length = 3) := by omega
        have h4 : ¬((stripHash x).length = 4) := by omega
        have h6 : ¬((stripHash x).length = 6) := by omega
        have hmap : (pairsOf (stripHash x)).mapM pyIntHex = none :=
          mapM_none_of_mem pyIntHex _ p hp hpnone
        rw [hex_to_rgbw]
        simp only [if_neg h3, if_neg h4, if_neg h6, if_pos h8, hmap]

theorem C8_hex_malformed_witness :
    (hex_to_rgbw ['a', 'b', 'c', 'd', 'e'] = .ok none ∧
      post_color ⟨some [0, 0, 0, 0], Mode.RGBW⟩ ['a', 'b', 'c', 'd', 'e']
        = .ok ⟨none, Mode.RGBW⟩) ∧
    hex_to_rgbw ['z', 'z', 'z', 'z'] = .error () ∧
    hex_to_rgbw ['1', '2', '3', '4', '5', 'z', '7', '8'] = .error () ∧
    hex_to_rgbw ['f', '0', 'g'] = .error () :=
  ⟨(C8_hex_malformed ['a', 'b', 'c', 'd', 'e']
      ⟨some [0, 0, 0, 0], Mode.RGBW⟩).1 (by decide) (by decide) (by decide)
      (by decide),
    ((C8_hex_malformed ['z', 'z', 'z', 'z']
        ⟨some [0, 0, 0, 0], Mode.RGBW⟩).2.2.2 (by decide)).1
      (Or.inr (by decide)) ⟨'z', by decide, by decide⟩,
    ((C8_hex_malformed ['1', '2', '3', '4', '5', 'z', '7', '8']
        ⟨some [0, 0, 0, 0], Mode.RGBW⟩).2.2.2 (by decide)).2
      (Or.inr (by decide)) ⟨['5', 'z'], by decide, by decide⟩,
    ((C8_hex_malformed ['f', '0', 'g']
        ⟨some [0, 0, 0, 0], Mode.RGBW⟩).2.2.2 (by decide)).1
      (Or.inl (by decide)) ⟨'g', by decide, by decide⟩⟩
